import Mathlib

/-!
Shallow embedding of `src/scripts/update_leaderboard.py` (the
scoring-and-aggregation engine of the ai-dynamic-leaderboard repository).

Texts are Lean `String`s; Python floats are modelled as rationals (`ℚ`);
Python `None`-able strings are `Option String` (with `none` = JSON null /
missing key and `some ""` = the empty string, which Python treats as falsy).

The regular expressions in the tables `KEYWORDS` and `BUCKET_RULES` all have
the shape `\b(alt₁|alt₂|…)\b` where each alternative is (after expanding the
finite quantifiers `s?` and `[- ]?`) a literal; `wordMatch` below implements
exactly that fragment of the regex language: some alternative occurs as a
substring whose neighbouring characters (when they exist) are not word
characters.  Vendor detection (`v in t` in Python) is plain substring search.
-/

namespace AIDash

/-- Python's `str.lower()` restricted to ASCII, which covers every character
occurring in the configuration tables. -/
def lowerText (t : List Char) : List Char := t.map Char.toLower

/-- Python `re`'s word character class `\w` (ASCII part), used by `\b`. -/
def isWordChar (c : Char) : Bool := c.isAlpha || c.isDigit || c = '_'

/-- If `lit` is a prefix of `t`, return the rest of `t`; else `none`. -/
def litAt : List Char → List Char → Option (List Char)
  | [], t => some t
  | _ :: _, [] => none
  | c :: ls, d :: ts => if c = d then litAt ls ts else none

/-- `lit` occurs at the very start of `t` and the character following the
occurrence (if any) is not a word character (the closing `\b`). -/
def hitHere (lit t : List Char) : Bool :=
  match litAt lit t with
  | some [] => true
  | some (c :: _) => !isWordChar c
  | none => false

/-- The opening `\b`: the character before the current position (if any)
is not a word character. -/
def boundaryPrev : Option Char → Bool
  | none => true
  | some c => !isWordChar c

/-- Search for `lit` with word boundaries anywhere in `t`; `prev` is the
character just before `t` in the full text. -/
def wordMatchAux (lit : List Char) (prev : Option Char) (t : List Char) : Bool :=
  (boundaryPrev prev && hitHere lit t) ||
    (match t with
     | [] => false
     | c :: ts => wordMatchAux lit (some c) ts)

/-- `re.search` of a `\b(alt₁|…|altₙ)\b` pattern against `t`. -/
def wordMatch (alts : List String) (t : List Char) : Bool :=
  alts.any fun a => wordMatchAux a.data none t

/-- Boolean prefix test on character lists. -/
def isPre : List Char → List Char → Bool
  | [], _ => true
  | _ :: _, [] => false
  | c :: ls, d :: ts => c = d && isPre ls ts

/-- Python's `needle in haystack` substring test. -/
def substrIn (needle : List Char) : List Char → Bool
  | [] => isPre needle []
  | c :: ts => isPre needle (c :: ts) || substrIn needle ts

/-- Python's `str.title()` on ASCII text: upper-case every letter that does
not follow a letter, lower-case the others. -/
def titleCaseAux : Bool → List Char → List Char
  | _, [] => []
  | prevAlpha, c :: ts =>
      (if prevAlpha then c.toLower else c.toUpper) :: titleCaseAux c.isAlpha ts

def titleCase (s : List Char) : List Char := titleCaseAux false s

/-- The characters Python's `str.strip()` removes. -/
def pySpace (c : Char) : Bool :=
  c = ' ' || c = '\t' || c = '\n' || c = '\r' ||
    c = Char.ofNat 11 || c = Char.ofNat 12

/-- Python's `str.strip()`. -/
def pyStrip (s : String) : String :=
  ⟨((s.data.dropWhile pySpace).reverse.dropWhile pySpace).reverse⟩

/-- Python truthiness of a nullable string: `None` and `""` are falsy. -/
def pyTruthyOpt : Option String → Bool
  | none => false
  | some s => !s.isEmpty

/-- Python's `a or b` on nullable strings. -/
def pyOr (a b : Option String) : Option String :=
  if pyTruthyOpt a then a else b

/-- Python's banker's rounding (`round`) of a rational to an integer:
round half to even. -/
def rndHalfEven (q : ℚ) : ℤ :=
  let f := ⌊q⌋
  let r := q - (f : ℚ)
  if r < 1/2 then f
  else if (1:ℚ)/2 < r then f + 1
  else if f % 2 = 0 then f else f + 1

/-- Python's `round(q, n)` (decimal places), on rationals. -/
def roundTo (n : ℕ) (q : ℚ) : ℚ :=
  (rndHalfEven (q * 10 ^ n) : ℚ) / 10 ^ n

/-!  ## Configuration tables

Each regex `\b(alt₁|alt₂|…)\b` from the source is written as its list of
literal alternatives, with the finite quantifiers `s?` and `[- ]?` expanded.
`KEYWORDS` patterns are matched by `score_from_keywords` against the
*lower-cased* text *case-sensitively* (so the upper-case alternatives `MMLU`
and `SOTA` are kept verbatim, as in the source, and can never fire).
`BUCKET_RULES` patterns are matched with `re.IGNORECASE`, which on ASCII is
the same as lower-casing both sides; their alternatives are stored
lower-cased here.  -/

def WEIGHTS_popularity : ℚ := 40/100
def WEIGHTS_performance : ℚ := 25/100
def WEIGHTS_cost : ℚ := 10/100
def WEIGHTS_privacy : ℚ := 10/100
def WEIGHTS_innovation : ℚ := 15/100

def CATEGORIES : List String :=
  ["LLM/Text", "Image/Vision", "Video/Motion", "Audio/Music", "Multi-Modal/Agentic"]

def KEYWORDS_popularity : List (List String) :=
  [["launch", "release", "now available", "partnership", "user", "users",
    "adoption", "daily active"]]

def KEYWORDS_performance : List (List String) :=
  [["benchmark", "leaderboard", "MMLU", "reasoning", "accuracy", "SOTA",
    "realism", "fidelity"]]

def KEYWORDS_cost : List (List String) :=
  [["cost", "cheap", "affordab", "pricing", "token", "tokens", "throughput",
    "latency", "efficien", "serverless"]]

def KEYWORDS_privacy : List (List String) :=
  [["privacy", "copyright", "likeness", "optout", "opt-out", "opt out",
    "consent", "watermark", "safety", "ondevice", "on-device", "on device"]]

def KEYWORDS_innovation : List (List String) :=
  [["multimodal", "agent", "agents", "tooluse", "tool-use", "tool use",
    "ecosystem", "plugins", "extensions", "vision", "audio", "video"]]

def BUCKET_RULES : List (String × List (List String)) :=
  [("LLM/Text",
    [["gpt", "claude", "gemini", "llama", "mistral", "command", "text",
      "rag", "token"]]),
   ("Image/Vision",
    [["image", "vision", "diffusion", "sdxl", "stability", "midjourney",
      "segmentation", "detection"]]),
   ("Video/Motion",
    [["video", "sora", "veo", "motion", "frame", "temporal", "uhd"]]),
   ("Audio/Music",
    [["audio", "music", "voice", "tts", "asr", "whisper", "chorus", "suno"]]),
   ("Multi-Modal/Agentic",
    [["multimodal", "agent", "tooluse", "tool-use", "tool use",
      "orchestration", "workflow", "planner"]])]

def VENDOR_HINT : List String :=
  ["openai", "google", "deepmind", "microsoft", "meta", "anthropic", "amazon",
   "xai", "stability", "midjourney", "runway", "pika", "elevenlabs", "coqui",
   "suno", "mistral", "databricks", "snowflake", "perplexity", "reka",
   "nvidia", "intel", "amd", "apple"]

def BEST_FOR_DEFAULT (c : String) : String :=
  if c = "LLM/Text" then "Reasoning, chat, knowledge tasks"
  else if c = "Image/Vision" then "Image generation & perception"
  else if c = "Video/Motion" then "Video synthesis & motion effects"
  else if c = "Audio/Music" then "Voice, TTS, music generation"
  else if c = "Multi-Modal/Agentic" then "Orchestration & tool-use"
  else ""

/-!  ## Classifier and scorer  -/

/-- `score_from_keywords(text, patterns)`: the number of patterns that match
the lower-cased text, divided by `max 1 (number of patterns)`, capped at 1. -/
def score_from_keywords (text : String) (patterns : List (List String)) : ℚ :=
  let t := lowerText text.data
  let s : ℚ := (patterns.countP fun pat => wordMatch pat t : ℕ)
  min 1 (s / (max 1 patterns.length : ℕ))

/-- `detect_vendor(text)`: the title-cased first vendor hint occurring as a
substring of the lower-cased text, `"Other"` when none does. -/
def detect_vendor (text : String) : String :=
  match VENDOR_HINT.find? (fun v => substrIn v.data (lowerText text.data)) with
  | some v => ⟨titleCase v.data⟩
  | none => "Other"

/-- `buckets_for(text)`: the categories whose pattern lists match (in table
order), or the fallback `["LLM/Text"]` when none do. -/
def buckets_for (text : String) : List String :=
  let hits := (BUCKET_RULES.filter fun cp =>
    cp.2.any fun pat => wordMatch pat (lowerText text.data)).map Prod.fst
  if hits.isEmpty then ["LLM/Text"] else hits

/-!  ## Data model

A `NewsItem` is one element of the `top_news` array of the prior dashboard
document.  `none` stands for a missing key or JSON `null`; `some ""` is the
(falsy, but non-null) empty string.  `score` is the externally supplied
recency score (`item.get("score", 0)` in the source). -/

structure NewsItem where
  title : Option String
  summary : Option String
  url : Option String
  published_at : Option String
  date : Option String
  score : Option ℚ
deriving DecidableEq

/-- `item.get(key, "")` / `item.get(key)` with the `None`-to-`""` default. -/
def getS (o : Option String) : String := o.getD ""

/-- `item.get("score", 0)`. -/
def scoreOf (item : NewsItem) : ℚ := item.score.getD 0

/-- The text blob `f"{title} {summary}"` built in `main`. -/
def textOf (item : NewsItem) : String :=
  getS item.title ++ " " ++ getS item.summary

/-- The five signal keys (the keys of `WEIGHTS` / each `signals` dict). -/
inductive SigKey where
  | popularity | performance | cost | privacy | innovation
deriving DecidableEq

/-- One per-item or per-aggregate signal vector (the five fixed keys). -/
structure Signals where
  popularity : ℚ
  performance : ℚ
  cost : ℚ
  privacy : ℚ
  innovation : ℚ
deriving DecidableEq

def Signals.get (s : Signals) : SigKey → ℚ
  | .popularity => s.popularity
  | .performance => s.performance
  | .cost => s.cost
  | .privacy => s.privacy
  | .innovation => s.innovation

/-- The `signals` dict computed for one item in `main`. -/
def item_signals (item : NewsItem) : Signals :=
  let text := textOf item
  { popularity :=
      min 1 (1/2 + scoreOf item * (1/2) +
        score_from_keywords text KEYWORDS_popularity * (1/2)),
    performance := score_from_keywords text KEYWORDS_performance,
    cost := score_from_keywords text KEYWORDS_cost,
    privacy := score_from_keywords text KEYWORDS_privacy,
    innovation := score_from_keywords text KEYWORDS_innovation }

/-- `derive_whats_new_and_date(item)`. -/
def derive_whats_new_and_date (item : NewsItem) : String × Option String :=
  let title := (pyStrip (getS (pyOr item.title (some "")))).take 140
  ((if title.isEmpty then "Recent update" else title),
   pyOr item.published_at item.date)

/-- The substring membership tests of `derive_pro_con` (`k in t`). -/
def anySub (ks : List String) (t : List Char) : Bool :=
  ks.any fun k => substrIn k.data t

/-- `derive_pro_con(text)`. -/
def derive_pro_con (text : String) : Option String × Option String :=
  let t := lowerText text.data
  let pro :=
    (if wordMatch (KEYWORDS_performance.headD []) t || substrIn "benchmark".data t
     then ["Strong benchmarks"] else []) ++
    (if anySub ["cheap", "afford", "pricing", "throughput", "latency",
                "serverless", "efficient"] t
     then ["Good cost/throughput"] else []) ++
    (if anySub ["privacy", "on-device", "watermark", "consent", "likeness"] t
     then ["Privacy-friendly"] else [])
  let con :=
    (if anySub ["limited", "bug", "outage", "downtime", "restriction",
                "waitlist"] t
     then ["Availability limits"] else []) ++
    (if anySub ["price increase", "expensive", "costly"] t
     then ["Higher cost"] else []) ++
    (if anySub ["copyright", "likeness", "lawsuit"] t
     then ["Potential IP/likeness risk"] else [])
  (let p := String.intercalate "; " pro
   if p.isEmpty then none else some p,
   let c := String.intercalate "; " con
   if c.isEmpty then none else some c)

/-- One `examples` entry (title, url, rounded score, date-if-truthy). -/
structure ExampleRef where
  title : String
  url : Option String
  signal : ℚ
  date : Option String
deriving DecidableEq

/-- The per-(bucket, vendor) aggregate record (`per_bucket[cat][vendor]`). -/
structure Agg where
  popularity : ℚ
  performance : ℚ
  cost : ℚ
  privacy : ℚ
  innovation : ℚ
  examples : List ExampleRef
  whats_new : Option String
  whats_new_date : Option String
  best_used_for : String
  main_pro : Option String
  main_con : Option String
deriving DecidableEq

def Agg.sig (a : Agg) : SigKey → ℚ
  | .popularity => a.popularity
  | .performance => a.performance
  | .cost => a.cost
  | .privacy => a.privacy
  | .innovation => a.innovation

/-- The defaultdict factory for bucket `c`. -/
def initAgg (c : String) : Agg :=
  { popularity := 0, performance := 0, cost := 0, privacy := 0, innovation := 0,
    examples := [], whats_new := none, whats_new_date := none,
    best_used_for := BEST_FOR_DEFAULT c, main_pro := none, main_con := none }

/-!  ## Aggregator

`per_bucket` is a `dict` of `defaultdict`s in the source; both preserve
insertion order, so each level is an association list and a fresh vendor is
appended at the end. -/

/-- The `examples` entry built for one item. -/
def exampleOf (item : NewsItem) : ExampleRef :=
  { title := getS item.title, url := item.url,
    signal := roundTo 2 (scoreOf item),
    date := if pyTruthyOpt item.published_at then item.published_at else none }

/-- The body of the `for cat in cats` loop: fold one item into one aggregate. -/
def updateAgg (item : NewsItem) (a : Agg) : Agg :=
  let sig := item_signals item
  let wn := (derive_whats_new_and_date item).1
  let wdate := (derive_whats_new_and_date item).2
  let pro := (derive_pro_con (textOf item)).1
  let con := (derive_pro_con (textOf item)).2
  { popularity := max a.popularity sig.popularity,
    performance := max a.performance sig.performance,
    cost := max a.cost sig.cost,
    privacy := max a.privacy sig.privacy,
    innovation := max a.innovation sig.innovation,
    whats_new := if pyTruthyOpt a.whats_new then a.whats_new else some wn,
    whats_new_date :=
      if pyTruthyOpt a.whats_new_date then a.whats_new_date else wdate,
    main_pro :=
      if pyTruthyOpt pro && !pyTruthyOpt a.main_pro then pro else a.main_pro,
    main_con :=
      if pyTruthyOpt con && !pyTruthyOpt a.main_con then con else a.main_con,
    examples :=
      if a.examples.length < 3 then a.examples ++ [exampleOf item]
      else a.examples,
    best_used_for := a.best_used_for }

/-- First-occurrence lookup in an association list (`dict` access). -/
def lookupKey (k : String) : List (String × α) → Option α
  | [] => none
  | (k2, v) :: rest => if k2 = k then some v else lookupKey k rest

/-- `defaultdict` access-and-update: modify the entry for `vendor` in place,
or append a fresh one built from `dflt` (dict insertion order). -/
def upsert (vendor : String) (f : Agg → Agg) (dflt : Agg) :
    List (String × Agg) → List (String × Agg)
  | [] => [(vendor, f dflt)]
  | (v, a) :: rest =>
      if v = vendor then (v, f a) :: rest
      else (v, a) :: upsert vendor f dflt rest

/-- The whole `per_bucket` state: `CATEGORIES`-keyed, vendor association
lists inside. -/
abbrev PB := List (String × List (String × Agg))

/-- The initial `per_bucket` comprehension (all five buckets, no vendors). -/
def initPB : PB := CATEGORIES.map fun c => (c, [])

/-- One iteration of the `for item in news` loop.  `buckets_for` only
produces keys of `BUCKET_RULES`, which are exactly the keys of `per_bucket`,
so indexing `per_bucket[cat]` is total and equals updating every bucket
whose key is in `cats`. -/
def processItem (pb : PB) (item : NewsItem) : PB :=
  let cats := buckets_for (textOf item)
  let vendor := detect_vendor (textOf item)
  pb.map fun cv =>
    (cv.1,
     if cv.1 ∈ cats then upsert vendor (updateAgg item) (initAgg cv.1) cv.2
     else cv.2)

/-- The aggregation loop over the whole batch. -/
def aggregate (news : List NewsItem) : PB := news.foldl processItem initPB

/-!  ## Ranker  -/

/-- The configurable weight vector (the module constant `WEIGHTS`; made a
parameter so that mis-configured vectors can be discussed). -/
structure Weights where
  popularity : ℚ
  performance : ℚ
  cost : ℚ
  privacy : ℚ
  innovation : ℚ
deriving DecidableEq

def WEIGHTS : Weights :=
  { popularity := WEIGHTS_popularity, performance := WEIGHTS_performance,
    cost := WEIGHTS_cost, privacy := WEIGHTS_privacy,
    innovation := WEIGHTS_innovation }

def weightsSum (w : Weights) : ℚ :=
  w.popularity + w.performance + w.cost + w.privacy + w.innovation

/-- One output row of the leaderboard. -/
structure Row where
  label : String
  score_total : ℚ
  scores : Signals
  examples : List ExampleRef
  whats_new : Option String
  whats_new_date : Option String
  best_used_for : String
  main_pro : Option String
  main_con : Option String
deriving DecidableEq

/-- The weighted total of one aggregate (`total` in the source). -/
def totalScore (w : Weights) (a : Agg) : ℚ :=
  a.popularity * w.popularity + a.performance * w.performance +
    a.cost * w.cost + a.privacy * w.privacy + a.innovation * w.innovation

/-- The row dict appended for one `(vendor, subs)` pair. -/
def mkRow (w : Weights) (vendor : String) (a : Agg) : Row :=
  { label := vendor,
    score_total := roundTo 4 (totalScore w a),
    scores := { popularity := roundTo 3 a.popularity,
                performance := roundTo 3 a.performance,
                cost := roundTo 3 a.cost,
                privacy := roundTo 3 a.privacy,
                innovation := roundTo 3 a.innovation },
    examples := a.examples, whats_new := a.whats_new,
    whats_new_date := a.whats_new_date, best_used_for := a.best_used_for,
    main_pro := a.main_pro, main_con := a.main_con }

/-- Stable insertion for the descending sort: `r` goes in front of the first
row whose total is `≤` its own, so rows it skips have strictly larger totals
and equal-total rows that were built earlier stay earlier.  This is the
specification of CPython's stable `list.sort(key=…, reverse=True)`. -/
def insertRow (r : Row) : List Row → List Row
  | [] => [r]
  | x :: xs =>
      if x.score_total ≤ r.score_total then r :: x :: xs
      else x :: insertRow r xs

def sortRows : List Row → List Row
  | [] => []
  | r :: rs => insertRow r (sortRows rs)

/-- The unsorted row list of one bucket, in vendor insertion order. -/
def bucketRows (w : Weights) (vendors : List (String × Agg)) : List Row :=
  vendors.map fun va => mkRow w va.1 va.2

/-- `rows.sort(key=…, reverse=True); leaderboard[cat] = rows[:top_per]`. -/
def rankBucket (w : Weights) (top_k : ℕ) (vendors : List (String × Agg)) :
    List Row :=
  (sortRows (bucketRows w vendors)).take top_k

/-- The full leaderboard construction of `main` for a given batch. -/
def buildLeaderboard (w : Weights) (top_k : ℕ) (news : List NewsItem) :
    List (String × List Row) :=
  (aggregate news).map fun cv => (cv.1, rankBucket w top_k cv.2)

/-- `main`'s leaderboard with the built-in weight vector. -/
def mainLeaderboard (top_k : ℕ) (news : List NewsItem) :
    List (String × List Row) :=
  buildLeaderboard WEIGHTS top_k news

/-!  ## Persistence glue (`read_json` and the final document assembly)  -/

/-- What the file system and JSON parser can yield for the prior document:
the file is absent, or it has some contents (which the supplied `parse`
turns into a document or fails on). -/
inductive FileOutcome where
  | missing
  | withContents (s : String)

/-- The exceptions that can escape `read_json`. -/
inductive PyError where
  | jsonDecodeError
deriving DecidableEq

/-- `read_json(path, default)`: `open` + `json.load` in a `try` whose only
handler is `except FileNotFoundError: return default`.  A parse failure
(`json.JSONDecodeError`) is not handled and propagates. -/
def read_json (parse : String → Option α) (fs : FileOutcome) (dflt : α) :
    Except PyError α :=
  match fs with
  | .missing => .ok dflt
  | .withContents s =>
      match parse s with
      | some d => .ok d
      | none => .error .jsonDecodeError

/-- Python dict assignment `d[k] = v`: replace the first entry for `k` in
place, or append a new one. -/
def setKey (k : String) (v : α) : List (String × α) → List (String × α)
  | [] => [(k, v)]
  | (k2, v2) :: rest =>
      if k2 = k then (k, v) :: rest else (k2, v2) :: setKey k v rest

/-- The end of `main`: `dashboard["leaderboard"] = …;
dashboard["generated_at"] = …` on the prior document. -/
def assemble (prior : List (String × α)) (lb ts : α) : List (String × α) :=
  setKey "generated_at" ts (setKey "leaderboard" lb prior)

/-!  ## Observers and specification-side definitions  -/

/-- The aggregate stored for `(c, v)`, if any. -/
def aggAt (pb : PB) (c v : String) : Option Agg :=
  lookupKey v ((lookupKey c pb).getD [])

/-- The items of a batch contributing to the `(c, v)` aggregate: those whose
bucket set contains `c` and whose detected vendor is `v`. -/
def contrib (c v : String) (news : List NewsItem) : List NewsItem :=
  news.filter fun it =>
    decide (c ∈ buckets_for (textOf it)) && decide (detect_vendor (textOf it) = v)

/-- Folding `updateAgg` over a list of items from a given aggregate. -/
def aggRun (a : Agg) (l : List NewsItem) : Agg :=
  l.foldl (fun acc it => updateAgg it acc) a

/-- The aggregate obtained from exactly the items of `l` (in order), `none`
when `l` is empty — the defaultdict entry exists only once touched. -/
def aggFold (c : String) (l : List NewsItem) : Option Agg :=
  l.foldl (fun acc it => some (updateAgg it (acc.getD (initAgg c)))) none

/-- Specification-side (from the claim's words): the per-key maximum of a
signal over a list of items, starting from 0. -/
def maxSig (k : SigKey) (l : List NewsItem) : ℚ :=
  l.foldl (fun m it => max m ((item_signals it).get k)) 0

/-- Specification-side (from the claim's words): the vendors of a bucket in
the order they are first encountered while aggregating the batch. -/
def firstEncounter (c : String) (news : List NewsItem) : List String :=
  news.foldl
    (fun ks it =>
      if decide (c ∈ buckets_for (textOf it)) then
        (if detect_vendor (textOf it) ∈ ks then ks
         else ks ++ [detect_vendor (textOf it)])
      else ks) []

/-- Specification-side (from the claim's words): the matching-pattern count
divided by the total pattern count, capped at 1. -/
def specKeywordRatio (text : String) (patterns : List (List String)) : ℚ :=
  min 1 ((patterns.countP fun pat => wordMatch pat (lowerText text.data) : ℕ) /
    (patterns.length : ℚ))

/-- Specification-side (from the claim's words): popularity blends the
recency score, `min(1.0, 0.5 + 0.5*recency + 0.5*keyword_score)`. -/
def specPopularity (recency kw : ℚ) : ℚ :=
  min 1 (1/2 + (1/2) * recency + (1/2) * kw)

/-!  ## Association-list lemmas  -/

theorem lookupKey_map (l : List (String × β)) (g : String → β → β) (k : String) :
    lookupKey k (l.map fun p => (p.1, g p.1 p.2)) = (lookupKey k l).map (g k) := by
  induction l with
  | nil => rfl
  | cons p rest ih =>
      by_cases h : p.1 = k
      · simp [lookupKey, h]
      · simp [lookupKey, h, ih]

theorem lookupKey_upsert (ven u : String) (f : Agg → Agg) (d : Agg)
    (l : List (String × Agg)) :
    lookupKey u (upsert ven f d l) =
      if ven = u then some (f ((lookupKey u l).getD d)) else lookupKey u l := by
  induction l with
  | nil =>
      by_cases h : ven = u <;> simp [upsert, lookupKey, h]
  | cons p rest ih =>
      obtain ⟨k2, a⟩ := p
      by_cases h1 : k2 = ven
      · subst h1
        by_cases h2 : k2 = u <;> simp [upsert, lookupKey, h2]
      · by_cases h2 : k2 = u
        · subst h2
          have : ¬ ven = k2 := fun h => h1 h.symm
          simp [upsert, lookupKey, h1, this]
        · simp [upsert, lookupKey, h1, h2, ih]

theorem upsert_keys (ven : String) (f : Agg → Agg) (d : Agg)
    (l : List (String × Agg)) :
    (upsert ven f d l).map Prod.fst =
      if ven ∈ l.map Prod.fst then l.map Prod.fst
      else l.map Prod.fst ++ [ven] := by
  induction l with
  | nil => simp [upsert]
  | cons p rest ih =>
      obtain ⟨k2, a⟩ := p
      by_cases h1 : k2 = ven
      · subst h1
        simp [upsert]
      · have h1' : ¬ ven = k2 := fun h => h1 h.symm
        by_cases h2 : ven ∈ rest.map Prod.fst <;>
          simp [upsert, h1, h1', h2, ih]

theorem lookupKey_eq_none_iff (k : String) (l : List (String × α)) :
    lookupKey k l = none ↔ k ∉ l.map Prod.fst := by
  induction l with
  | nil => simp [lookupKey]
  | cons p rest ih =>
      by_cases h : p.1 = k
      · simp [lookupKey, h]
      · have h' : ¬ k = p.1 := fun hh => h hh.symm
        simp [lookupKey, h, h', ih]

theorem lookupKey_of_mem_nodup (l : List (String × α)) (k : String) (v : α)
    (hnd : (l.map Prod.fst).Nodup) (hm : (k, v) ∈ l) :
    lookupKey k l = some v := by
  induction l with
  | nil => cases hm
  | cons p rest ih =>
      simp only [List.map_cons, List.nodup_cons] at hnd
      rcases List.mem_cons.mp hm with h | h
      · subst h
        simp [lookupKey]
      · have hk : ¬ p.1 = k := by
          intro he
          exact hnd.1 (he ▸ (List.mem_map.mpr ⟨(k, v), h, rfl⟩))
        simp [lookupKey, hk, ih hnd.2 h]

theorem setKey_lookup_same (k : String) (v : α) (l : List (String × α)) :
    lookupKey k (setKey k v l) = some v := by
  induction l with
  | nil => simp [setKey, lookupKey]
  | cons p rest ih =>
      by_cases h : p.1 = k <;> simp [setKey, lookupKey, h, ih]

theorem setKey_lookup_other (k u : String) (hne : u ≠ k) (v : α)
    (l : List (String × α)) :
    lookupKey u (setKey k v l) = lookupKey u l := by
  have hku : ¬ k = u := fun h => hne h.symm
  induction l with
  | nil => simp [setKey, lookupKey, hku]
  | cons p rest ih =>
      by_cases h : p.1 = k
      · rw [setKey, if_pos h]
        rw [lookupKey, lookupKey, if_neg hku, if_neg (h ▸ hku)]
      · rw [setKey, if_neg h]
        by_cases h2 : p.1 = u <;> simp [lookupKey, h2, ih]

/-!  ## Keys of the aggregation state  -/

theorem processItem_keys (pb : PB) (it : NewsItem) :
    (processItem pb it).map Prod.fst = pb.map Prod.fst := by
  simp [processItem, List.map_map, Function.comp]

theorem aggregate_keys (news : List NewsItem) :
    (aggregate news).map Prod.fst = CATEGORIES := by
  have h : ∀ (l : List NewsItem) (pb : PB),
      (l.foldl processItem pb).map Prod.fst = pb.map Prod.fst := by
    intro l
    induction l with
    | nil => intro pb; rfl
    | cons it rest ih =>
        intro pb
        rw [List.foldl_cons, ih, processItem_keys]
  rw [aggregate, h]
  decide

theorem buckets_for_subset (t : String) (c : String)
    (h : c ∈ buckets_for t) : c ∈ CATEGORIES := by
  rw [buckets_for] at h
  by_cases he : ((BUCKET_RULES.filter fun cp =>
      cp.2.any fun pat => wordMatch pat (lowerText t.data)).map Prod.fst).isEmpty
  · simp only [he, if_true] at h
    simp only [List.mem_singleton] at h
    subst h
    decide
  · simp only [he, if_false] at h
    have : c ∈ BUCKET_RULES.map Prod.fst := by
      rcases List.mem_map.mp h with ⟨cp, hcp, hfst⟩
      exact List.mem_map.mpr ⟨cp, List.mem_of_mem_filter hcp, hfst⟩
    have hrules : BUCKET_RULES.map Prod.fst = CATEGORIES := by decide
    rwa [hrules] at this

theorem aggregate_append (news : List NewsItem) (it : NewsItem) :
    aggregate (news ++ [it]) = processItem (aggregate news) it := by
  simp [aggregate, List.foldl_append]

theorem lookupKey_mem (k : String) (l : List (String × α)) (v : α)
    (h : lookupKey k l = some v) : (k, v) ∈ l := by
  induction l with
  | nil => cases h
  | cons p rest ih =>
      by_cases he : p.1 = k
      · rw [lookupKey, if_pos he] at h
        have hv : p.2 = v := by injection h
        have hp : p = (k, v) := by
          obtain ⟨p1, p2⟩ := p
          cases he
          cases hv
          rfl
        rw [hp]
        exact List.mem_cons_self _ _
      · rw [lookupKey, if_neg he] at h
        exact List.mem_cons_of_mem _ (ih h)

/-!  ## The aggregate of a pair as a fold over its contributing items  -/

theorem aggAt_processItem (pb : PB) (it : NewsItem) (c v : String)
    (hkeys : pb.map Prod.fst = CATEGORIES) :
    aggAt (processItem pb it) c v =
      if c ∈ buckets_for (textOf it) ∧ detect_vendor (textOf it) = v then
        some (updateAgg it ((aggAt pb c v).getD (initAgg c)))
      else aggAt pb c v := by
  have hmap :
      lookupKey c (processItem pb it) =
        (lookupKey c pb).map fun ws =>
          if c ∈ buckets_for (textOf it) then
            upsert (detect_vendor (textOf it)) (updateAgg it) (initAgg c) ws
          else ws := by
    exact lookupKey_map pb
      (fun cc ws =>
        if cc ∈ buckets_for (textOf it) then
          upsert (detect_vendor (textOf it)) (updateAgg it) (initAgg cc) ws
        else ws) c
  by_cases hc : c ∈ CATEGORIES
  · have hk : c ∈ pb.map Prod.fst := hkeys ▸ hc
    obtain ⟨ws, hws⟩ :
        ∃ ws, lookupKey c pb = some ws := by
      rcases hlk : lookupKey c pb with _ | ws
      · exact absurd ((lookupKey_eq_none_iff c pb).mp hlk) (not_not_intro hk)
      · exact ⟨ws, rfl⟩
    rw [aggAt, hmap, hws, Option.map_some']
    by_cases hb : c ∈ buckets_for (textOf it)
    · rw [if_pos hb, Option.getD_some, lookupKey_upsert]
      by_cases hv : detect_vendor (textOf it) = v
      · rw [if_pos hv, if_pos ⟨hb, hv⟩, aggAt, hws, Option.getD_some]
      · rw [if_neg hv, if_neg (fun hand => hv hand.2), aggAt, hws, Option.getD_some]
    · rw [if_neg hb, if_neg (fun hand => hb hand.1), Option.getD_some, aggAt, hws,
        Option.getD_some]
  · have hnone : lookupKey c pb = none :=
      (lookupKey_eq_none_iff c pb).mpr (fun hm => hc (hkeys ▸ hm))
    have hcond : ¬ (c ∈ buckets_for (textOf it) ∧ detect_vendor (textOf it) = v) :=
      fun hand => hc (buckets_for_subset _ _ hand.1)
    rw [aggAt, hmap, hnone, Option.map_none', Option.getD_none, if_neg hcond,
      aggAt, hnone, Option.getD_none]

/-- The predicate selecting the contributing items. -/
def contribP (c v : String) (it : NewsItem) : Bool :=
  decide (c ∈ buckets_for (textOf it)) && decide (detect_vendor (textOf it) = v)

theorem contrib_eq_filter (c v : String) (news : List NewsItem) :
    contrib c v news = news.filter (contribP c v) := rfl

theorem aggAt_aggregate (news : List NewsItem) (c v : String) :
    aggAt (aggregate news) c v = aggFold c (contrib c v news) := by
  induction news using List.reverseRecOn with
  | nil =>
      have h1 : aggAt (aggregate []) c v = none := by
        rcases hlk : lookupKey c (aggregate []) with _ | ws
        · rw [aggAt, hlk, Option.getD_none]; rfl
        · have hm : (c, ws) ∈ aggregate [] := lookupKey_mem _ _ _ hlk
          have : ws = [] := by
            have : (c, ws) ∈ initPB := hm
            rcases List.mem_map.mp this with ⟨cc, _, heq⟩
            cases heq
            rfl
          rw [aggAt, hlk, Option.getD_some, this]
          rfl
      rw [h1]
      rfl
  | append_singleton ns it ih =>
      rw [aggregate_append, aggAt_processItem _ _ _ _ (aggregate_keys ns),
        contrib_eq_filter, List.filter_append, ← contrib_eq_filter]
      by_cases hcond : c ∈ buckets_for (textOf it) ∧ detect_vendor (textOf it) = v
      · have hfil : List.filter (contribP c v) [it] = [it] := by
          have : contribP c v it = true := by
            rw [contribP, Bool.and_eq_true, decide_eq_true_eq, decide_eq_true_eq]
            exact hcond
          simp [List.filter, this]
        rw [if_pos hcond, hfil, aggFold, List.foldl_append, ← aggFold, ih,
          List.foldl_cons, List.foldl_nil]
      · have hfil : List.filter (contribP c v) [it] = [] := by
          have : contribP c v it = false := by
            rw [contribP]
            rcases Decidable.not_and_iff_or_not.mp hcond with hl | hr
            · simp [hl]
            · simp [hr]
          simp [List.filter, this]
        rw [if_neg hcond, hfil, List.append_nil, ih]

/-!  ## Per-field behaviour of the aggregate fold  -/

theorem aggFold_cons (c : String) (it : NewsItem) (l : List NewsItem) :
    aggFold c (it :: l) = some (aggRun (updateAgg it (initAgg c)) l) := by
  rw [aggFold, List.foldl_cons]
  have h : ∀ (l' : List NewsItem) (a : Agg),
      l'.foldl (fun acc it => some (updateAgg it (acc.getD (initAgg c)))) (some a) =
        some (aggRun a l') := by
    intro l'
    induction l' with
    | nil => intro a; rfl
    | cons x xs ih =>
        intro a
        rw [List.foldl_cons, Option.getD_some, ih]
        rfl
  exact h l _

theorem updateAgg_sig (it : NewsItem) (a : Agg) (k : SigKey) :
    (updateAgg it a).sig k = max (a.sig k) ((item_signals it).get k) := by
  cases k <;> rfl

theorem initAgg_sig (c : String) (k : SigKey) : (initAgg c).sig k = 0 := by
  cases k <;> rfl

theorem aggRun_sig (l : List NewsItem) (a : Agg) (k : SigKey) :
    (aggRun a l).sig k =
      l.foldl (fun m it => max m ((item_signals it).get k)) (a.sig k) := by
  induction l generalizing a with
  | nil => rfl
  | cons it rest ih =>
      rw [aggRun, List.foldl_cons, ← aggRun, ih, updateAgg_sig, List.foldl_cons]

theorem aggFold_sig (c : String) (l : List NewsItem) (k : SigKey) :
    ((aggFold c l).map fun a => a.sig k).getD 0 = maxSig k l := by
  cases l with
  | nil => rfl
  | cons it rest =>
      rw [aggFold_cons, Option.map_some', Option.getD_some, aggRun_sig,
        updateAgg_sig, initAgg_sig, maxSig, List.foldl_cons]

theorem le_foldl_max (f : NewsItem → ℚ) (l : List NewsItem) (b : ℚ) :
    b ≤ l.foldl (fun m it => max m (f it)) b := by
  induction l generalizing b with
  | nil => exact le_refl b
  | cons it rest ih =>
      rw [List.foldl_cons]
      exact le_trans (le_max_left b (f it)) (ih _)

theorem foldl_max_le (f : NewsItem → ℚ) (l : List NewsItem) (b B : ℚ)
    (hb : b ≤ B) (hl : ∀ it ∈ l, f it ≤ B) :
    l.foldl (fun m it => max m (f it)) b ≤ B := by
  induction l generalizing b with
  | nil => exact hb
  | cons it rest ih =>
      rw [List.foldl_cons]
      exact ih _ (max_le hb (hl it (List.mem_cons_self _ _)))
        (fun x hx => hl x (List.mem_cons_of_mem _ hx))

theorem maxSig_nonneg (k : SigKey) (l : List NewsItem) : 0 ≤ maxSig k l :=
  le_foldl_max _ l 0

theorem maxSig_append_le (k : SigKey) (l l2 : List NewsItem) :
    maxSig k l ≤ maxSig k (l ++ l2) := by
  rw [maxSig, maxSig, List.foldl_append]
  exact le_foldl_max _ l2 _

/-!  ## whats_new and whats_new_date across the fold  -/

theorem wn_not_empty (it : NewsItem) :
    ((derive_whats_new_and_date it).1).isEmpty = false := by
  rw [derive_whats_new_and_date]
  by_cases h : ((pyStrip (getS (pyOr it.title (some "")))).take 140).isEmpty
  · simp only [h, if_true]
    decide
  · simp only [h, if_false]
    exact Bool.not_eq_true _ ▸ (by simpa using h)

theorem aggRun_whats_new (l : List NewsItem) (a : Agg)
    (h : pyTruthyOpt a.whats_new = true) :
    (aggRun a l).whats_new = a.whats_new := by
  induction l generalizing a with
  | nil => rfl
  | cons it rest ih =>
      rw [aggRun, List.foldl_cons, ← aggRun]
      have hstep : (updateAgg it a).whats_new = a.whats_new := by
        simp [updateAgg, h]
      rw [ih _ (hstep ▸ h), hstep]

theorem aggFold_whats_new (c : String) (l : List NewsItem) :
    (aggFold c l).map Agg.whats_new =
      l.head?.map fun it => some (derive_whats_new_and_date it).1 := by
  cases l with
  | nil => rfl
  | cons it rest =>
      rw [aggFold_cons, Option.map_some', List.head?_cons, Option.map_some']
      have hfirst : (updateAgg it (initAgg c)).whats_new =
          some (derive_whats_new_and_date it).1 := by
        simp [updateAgg, initAgg, pyTruthyOpt]
      have htruthy : pyTruthyOpt (updateAgg it (initAgg c)).whats_new = true := by
        rw [hfirst, pyTruthyOpt, wn_not_empty]
        rfl
      rw [aggRun_whats_new _ _ htruthy, hfirst]

/-- One step of the `whats_new_date` update (Python truthiness). -/
def dateStep (cur d : Option String) : Option String :=
  if pyTruthyOpt cur then cur else d

/-- The date offered by one item (`published_at or date`). -/
def wdateOf (it : NewsItem) : Option String := (derive_whats_new_and_date it).2

theorem updateAgg_whats_new_date (it : NewsItem) (a : Agg) :
    (updateAgg it a).whats_new_date = dateStep a.whats_new_date (wdateOf it) := rfl

theorem aggRun_whats_new_date (l : List NewsItem) (a : Agg) :
    (aggRun a l).whats_new_date = (l.map wdateOf).foldl dateStep a.whats_new_date := by
  induction l generalizing a with
  | nil => rfl
  | cons it rest ih =>
      rw [aggRun, List.foldl_cons, ← aggRun, ih, updateAgg_whats_new_date,
        List.map_cons, List.foldl_cons]

theorem aggFold_whats_new_date (c : String) (l : List NewsItem) :
    (aggFold c l).map Agg.whats_new_date =
      if l.isEmpty then none else some ((l.map wdateOf).foldl dateStep none) := by
  cases l with
  | nil => rfl
  | cons it rest =>
      rw [aggFold_cons, Option.map_some', aggRun_whats_new_date,
        updateAgg_whats_new_date, List.map_cons, List.foldl_cons]
      have hinit : (initAgg c).whats_new_date = none := rfl
      rw [hinit]
      rfl

theorem dateStep_keeps (cur : Option String) (h : pyTruthyOpt cur = true)
    (ds : List (Option String)) : ds.foldl dateStep cur = cur := by
  induction ds with
  | nil => rfl
  | cons d rest ih =>
      rw [List.foldl_cons, dateStep, if_pos h, ih]

theorem dateFold_first_truthy (ds1 : List (Option String)) (d : Option String)
    (ds2 : List (Option String)) (h1 : ∀ x ∈ ds1, pyTruthyOpt x = false)
    (hd : pyTruthyOpt d = true) (cur : Option String)
    (hcur : pyTruthyOpt cur = false) :
    (ds1 ++ d :: ds2).foldl dateStep cur = d := by
  induction ds1 generalizing cur with
  | nil =>
      rw [List.nil_append, List.foldl_cons, dateStep, if_neg (by rw [hcur]; exact Bool.false_ne_true)]
      exact dateStep_keeps d hd ds2
  | cons x xs ih =>
      rw [List.cons_append, List.foldl_cons, dateStep,
        if_neg (by rw [hcur]; exact Bool.false_ne_true)]
      exact ih (fun y hy => h1 y (List.mem_cons_of_mem _ hy))
        x (h1 x (List.mem_cons_self _ _))

/-!  ## The stable descending sort  -/

theorem insertRow_perm (r : Row) (l : List Row) : (insertRow r l).Perm (r :: l) := by
  induction l with
  | nil => exact List.Perm.refl _
  | cons x xs ih =>
      simp only [insertRow]
      by_cases h : x.score_total ≤ r.score_total
      · rw [if_pos h]
      · rw [if_neg h]
        exact (ih.cons x).trans (List.Perm.swap r x xs)

theorem sortRows_perm (l : List Row) : (sortRows l).Perm l := by
  induction l with
  | nil => exact List.Perm.refl _
  | cons r rs ih =>
      exact (insertRow_perm r (sortRows rs)).trans (ih.cons r)

theorem insertRow_pairwise (r : Row) (l : List Row)
    (h : l.Pairwise fun a b => b.score_total ≤ a.score_total) :
    (insertRow r l).Pairwise fun a b => b.score_total ≤ a.score_total := by
  induction l with
  | nil => simp [insertRow]
  | cons x xs ih =>
      rw [List.pairwise_cons] at h
      simp only [insertRow]
      by_cases hle : x.score_total ≤ r.score_total
      · rw [if_pos hle]
        refine List.Pairwise.cons ?_ (List.Pairwise.cons h.1 h.2)
        intro y hy
        rcases List.mem_cons.mp hy with rfl | hy'
        · exact hle
        · exact le_trans (h.1 y hy') hle
      · rw [if_neg hle]
        refine List.Pairwise.cons ?_ (ih h.2)
        intro y hy
        rcases List.mem_cons.mp ((insertRow_perm r xs).mem_iff.mp hy) with rfl | hy'
        · exact le_of_lt (not_le.mp hle)
        · exact h.1 y hy'

theorem sortRows_pairwise (l : List Row) :
    (sortRows l).Pairwise fun a b => b.score_total ≤ a.score_total := by
  induction l with
  | nil => exact List.Pairwise.nil
  | cons r rs ih => exact insertRow_pairwise r _ ih

theorem insertRow_filter (r : Row) (l : List Row) (s : ℚ) :
    (insertRow r l).filter (fun x => decide (x.score_total = s)) =
      if r.score_total = s then
        r :: l.filter (fun x => decide (x.score_total = s))
      else l.filter (fun x => decide (x.score_total = s)) := by
  induction l with
  | nil =>
      by_cases h : r.score_total = s <;> simp [insertRow, List.filter, h]
  | cons x xs ih =>
      simp only [insertRow]
      by_cases hle : x.score_total ≤ r.score_total
      · rw [if_pos hle]
        by_cases h : r.score_total = s <;> simp [List.filter, h]
      · rw [if_neg hle]
        by_cases hx : x.score_total = s
        · have hr : ¬ r.score_total = s := by
            intro he
            exact hle (le_of_eq (hx.trans he.symm))
          simp [List.filter, hx, hr, ih]
        · by_cases h : r.score_total = s <;> simp [List.filter, hx, h, ih]

theorem sortRows_filter (l : List Row) (s : ℚ) :
    (sortRows l).filter (fun x => decide (x.score_total = s)) =
      l.filter (fun x => decide (x.score_total = s)) := by
  induction l with
  | nil => rfl
  | cons r rs ih =>
      show (insertRow r (sortRows rs)).filter _ = _
      rw [insertRow_filter]
      by_cases h : r.score_total = s <;> simp [List.filter, h, ih]

/-!  ## Rounding bounds  -/

theorem rndHalfEven_bounds (q : ℚ) (N : ℤ) (h0 : 0 ≤ q) (hN : q ≤ (N : ℚ)) :
    0 ≤ rndHalfEven q ∧ rndHalfEven q ≤ N := by
  have hf0 : 0 ≤ ⌊q⌋ := Int.le_floor.mpr (by exact_mod_cast h0)
  have hfN : ⌊q⌋ ≤ N := by
    have h := Int.floor_le_floor hN
    rwa [Int.floor_intCast] at h
  have hsucc : (1:ℚ)/2 ≤ q - (⌊q⌋ : ℚ) → ⌊q⌋ + 1 ≤ N := by
    intro hr
    have hlt : (⌊q⌋ : ℚ) < (N : ℚ) := by
      have : (⌊q⌋ : ℚ) < q := by linarith
      linarith
    have : ⌊q⌋ < N := by exact_mod_cast hlt
    omega
  rw [rndHalfEven]
  split_ifs with hr1 hr2 hpar
  · exact ⟨hf0, hfN⟩
  · exact ⟨by omega, hsucc (le_of_lt hr2)⟩
  · exact ⟨hf0, hfN⟩
  · have hr : (1:ℚ)/2 ≤ q - (⌊q⌋ : ℚ) := le_of_not_lt hr1
    exact ⟨by omega, hsucc hr⟩

theorem roundTo_bounds (n : ℕ) (q : ℚ) (h0 : 0 ≤ q) (h1 : q ≤ 1) :
    0 ≤ roundTo n q ∧ roundTo n q ≤ 1 := by
  have hpow : (0:ℚ) < 10 ^ n := by positivity
  have hb := rndHalfEven_bounds (q * 10 ^ n) (10 ^ n)
    (by positivity)
    (by
      push_cast
      calc q * 10 ^ n ≤ 1 * 10 ^ n := by
            exact mul_le_mul_of_nonneg_right h1 (le_of_lt hpow)
        _ = 10 ^ n := one_mul _)
  constructor
  · rw [roundTo]
    apply div_nonneg _ (le_of_lt hpow)
    exact_mod_cast hb.1
  · rw [roundTo, div_le_one hpow]
    exact_mod_cast hb.2

/-!  ## Signal and total-score bounds  -/

theorem score_from_keywords_def (text : String) (pats : List (List String)) :
    score_from_keywords text pats =
      min 1 (((pats.countP fun pat => wordMatch pat (lowerText text.data) : ℕ) : ℚ) /
        ((max 1 pats.length : ℕ) : ℚ)) := rfl

theorem score_from_keywords_bounds (text : String) (pats : List (List String)) :
    0 ≤ score_from_keywords text pats ∧ score_from_keywords text pats ≤ 1 := by
  rw [score_from_keywords_def]
  constructor
  · exact le_min (by norm_num) (div_nonneg (Nat.cast_nonneg _) (Nat.cast_nonneg _))
  · exact min_le_left _ _

theorem item_signals_pop_def (it : NewsItem) :
    (item_signals it).popularity =
      min 1 (1/2 + scoreOf it * (1/2) +
        score_from_keywords (textOf it) KEYWORDS_popularity * (1/2)) := rfl

theorem item_signals_pop_ge (it : NewsItem) (h0 : 0 ≤ scoreOf it) :
    1/2 ≤ (item_signals it).popularity := by
  have hkw := (score_from_keywords_bounds (textOf it) KEYWORDS_popularity).1
  rw [item_signals_pop_def]
  exact le_min (by norm_num) (by nlinarith)

theorem item_signals_bounds (it : NewsItem) (h0 : 0 ≤ scoreOf it)
    (_h1 : scoreOf it ≤ 1) (k : SigKey) :
    0 ≤ (item_signals it).get k ∧ (item_signals it).get k ≤ 1 := by
  cases k with
  | popularity =>
      refine ⟨le_trans (by norm_num) (item_signals_pop_ge it h0), ?_⟩
      rw [show (item_signals it).get .popularity = (item_signals it).popularity from rfl,
        item_signals_pop_def]
      exact min_le_left _ _
  | performance => exact score_from_keywords_bounds _ _
  | cost => exact score_from_keywords_bounds _ _
  | privacy => exact score_from_keywords_bounds _ _
  | innovation => exact score_from_keywords_bounds _ _

theorem totalScore_bounds (a : Agg) (h : ∀ k, 0 ≤ a.sig k ∧ a.sig k ≤ 1) :
    0 ≤ totalScore WEIGHTS a ∧ totalScore WEIGHTS a ≤ 1 := by
  have hp := h .popularity
  have hf := h .performance
  have hc := h .cost
  have hpr := h .privacy
  have hi := h .innovation
  rw [show a.sig .popularity = a.popularity from rfl] at hp
  rw [show a.sig .performance = a.performance from rfl] at hf
  rw [show a.sig .cost = a.cost from rfl] at hc
  rw [show a.sig .privacy = a.privacy from rfl] at hpr
  rw [show a.sig .innovation = a.innovation from rfl] at hi
  rw [totalScore]
  have hw : WEIGHTS.popularity = 40/100 ∧ WEIGHTS.performance = 25/100 ∧
      WEIGHTS.cost = 10/100 ∧ WEIGHTS.privacy = 10/100 ∧
      WEIGHTS.innovation = 15/100 := ⟨rfl, rfl, rfl, rfl, rfl⟩
  rw [hw.1, hw.2.1, hw.2.2.1, hw.2.2.2.1, hw.2.2.2.2]
  constructor <;> nlinarith [hp.1, hp.2, hf.1, hf.2, hc.1, hc.2, hpr.1, hpr.2,
    hi.1, hi.2]

/-!  ## Vendor keys: no duplicates, first-encounter order  -/

theorem vendors_nodup (news : List NewsItem) (c : String) :
    (((lookupKey c (aggregate news)).getD []).map Prod.fst).Nodup := by
  induction news using List.reverseRecOn with
  | nil =>
      rcases hlk : lookupKey c (aggregate []) with _ | ws
      · exact List.nodup_nil
      · have hm : (c, ws) ∈ initPB := lookupKey_mem _ _ _ hlk
        rcases List.mem_map.mp hm with ⟨cc, _, heq⟩
        cases heq
        exact List.nodup_nil
  | append_singleton ns it ih =>
      rw [aggregate_append]
      have hmap := lookupKey_map (aggregate ns)
        (fun cc ws =>
          if cc ∈ buckets_for (textOf it) then
            upsert (detect_vendor (textOf it)) (updateAgg it) (initAgg cc) ws
          else ws) c
      rw [show processItem (aggregate ns) it =
            (aggregate ns).map fun cv =>
              (cv.1,
               if cv.1 ∈ buckets_for (textOf it) then
                 upsert (detect_vendor (textOf it)) (updateAgg it) (initAgg cv.1) cv.2
               else cv.2) from rfl, hmap]
      rcases hlk : lookupKey c (aggregate ns) with _ | ws
      · exact List.nodup_nil
      · rw [hlk] at ih
        rw [Option.map_some', Option.getD_some]
        rw [Option.getD_some] at ih
        by_cases hb : c ∈ buckets_for (textOf it)
        · rw [if_pos hb, upsert_keys]
          by_cases hv : detect_vendor (textOf it) ∈ ws.map Prod.fst
          · rw [if_pos hv]
            exact ih
          · rw [if_neg hv]
            rw [List.nodup_append]
            exact ⟨ih, List.nodup_singleton _,
              fun a ha hmem => hv ((List.mem_singleton.mp hmem) ▸ ha)⟩
        · rw [if_neg hb]
          exact ih

theorem vendors_firstEncounter (news : List NewsItem) (c : String) :
    ((lookupKey c (aggregate news)).getD []).map Prod.fst =
      firstEncounter c news := by
  induction news using List.reverseRecOn with
  | nil =>
      have h : firstEncounter c [] = [] := rfl
      rw [h]
      rcases hlk : lookupKey c (aggregate []) with _ | ws
      · rfl
      · have hm : (c, ws) ∈ initPB := lookupKey_mem _ _ _ hlk
        rcases List.mem_map.mp hm with ⟨cc, _, heq⟩
        cases heq
        rfl
  | append_singleton ns it ih =>
      have hfe : firstEncounter c (ns ++ [it]) =
          (if decide (c ∈ buckets_for (textOf it)) then
            (if detect_vendor (textOf it) ∈ firstEncounter c ns then
              firstEncounter c ns
             else firstEncounter c ns ++ [detect_vendor (textOf it)])
           else firstEncounter c ns) := by
        rw [firstEncounter, List.foldl_append]
        rfl
      rw [aggregate_append, hfe]
      have hmap := lookupKey_map (aggregate ns)
        (fun cc ws =>
          if cc ∈ buckets_for (textOf it) then
            upsert (detect_vendor (textOf it)) (updateAgg it) (initAgg cc) ws
          else ws) c
      rw [show processItem (aggregate ns) it =
            (aggregate ns).map fun cv =>
              (cv.1,
               if cv.1 ∈ buckets_for (textOf it) then
                 upsert (detect_vendor (textOf it)) (updateAgg it) (initAgg cv.1) cv.2
               else cv.2) from rfl, hmap]
      rcases hlk : lookupKey c (aggregate ns) with _ | ws
      · -- the key is absent: the bucket is not one of the five categories
        have hc : c ∉ CATEGORIES := by
          intro hmem
          have : c ∈ (aggregate ns).map Prod.fst := (aggregate_keys ns) ▸ hmem
          exact ((lookupKey_eq_none_iff c (aggregate ns)).mp hlk) this
        have hb : ¬ c ∈ buckets_for (textOf it) :=
          fun hbb => hc (buckets_for_subset _ _ hbb)
        rw [hlk] at ih
        rw [Option.map_none', Option.getD_none]
        rw [Option.getD_none] at ih
        simp only [hb, decide_False, if_false]
        exact ih
      · rw [hlk] at ih
        rw [Option.map_some', Option.getD_some]
        rw [Option.getD_some] at ih
        by_cases hb : c ∈ buckets_for (textOf it)
        · rw [if_pos hb, upsert_keys, ih]
          simp only [hb, decide_True, if_true]
        · rw [if_neg hb]
          simp only [hb, decide_False, if_false]
          exact ih

theorem mem_mainLeaderboard (news : List NewsItem) (k : ℕ) (c : String)
    (rows : List Row) (h : (c, rows) ∈ mainLeaderboard k news) :
    rows = rankBucket WEIGHTS k ((lookupKey c (aggregate news)).getD []) := by
  rcases List.mem_map.mp h with ⟨cv, hcv, heq⟩
  rw [Prod.ext_iff] at heq
  obtain ⟨h1, h2⟩ := heq
  cases h1
  cases h2
  have hnd : ((aggregate news).map Prod.fst).Nodup := by
    rw [aggregate_keys]
    decide
  rw [lookupKey_of_mem_nodup _ _ _ hnd (by exact hcv), Option.getD_some]
  rfl

/-!  ## Whitespace-only text never matches a pattern or vendor hint  -/

theorem toLower_whitespace (c : Char) (h : c.isWhitespace = true) :
    c.toLower = c := by
  have hc : ((c = ' ' ∨ c = '\t') ∨ c = '\x0d') ∨ c = '\n' := by
    rw [Char.isWhitespace] at h
    simpa using h
  rcases hc with ((rfl | rfl) | rfl) | rfl <;> decide

theorem wordMatchAux_head_mem (c : Char) (ls : List Char) :
    ∀ (t : List Char) (prev : Option Char),
      wordMatchAux (c :: ls) prev t = true → c ∈ t := by
  intro t
  induction t with
  | nil =>
      intro prev h
      rw [wordMatchAux] at h
      simp [hitHere, litAt, boundaryPrev] at h
  | cons d ts ih =>
      intro prev h
      rw [wordMatchAux, Bool.or_eq_true] at h
      rcases h with h | h
      · rw [Bool.and_eq_true] at h
        have hh := h.2
        by_cases hcd : c = d
        · exact hcd ▸ List.mem_cons_self _ _
        · rw [hitHere] at hh
          rw [show litAt (c :: ls) (d :: ts) = none by
            rw [litAt, if_neg hcd]] at hh
          cases hh
      · exact List.mem_cons_of_mem _ (ih _ h)

theorem substrIn_head_mem (c : Char) (ls : List Char) :
    ∀ t : List Char, substrIn (c :: ls) t = true → c ∈ t := by
  intro t
  induction t with
  | nil =>
      intro h
      rw [substrIn] at h
      simp [isPre] at h
  | cons d ts ih =>
      intro h
      rw [substrIn, Bool.or_eq_true] at h
      rcases h with h | h
      · rw [isPre, Bool.and_eq_true] at h
        have hcd : c = d := by
          have := h.1
          exact of_decide_eq_true this
        exact hcd ▸ List.mem_cons_self _ _
      · exact List.mem_cons_of_mem _ (ih h)

theorem bucket_alt_heads :
    ∀ cp ∈ BUCKET_RULES, ∀ pat ∈ cp.2, ∀ alt ∈ pat,
      alt.data ≠ [] ∧ (alt.data.headD 'a').isWhitespace = false := by decide

theorem vendor_hint_heads :
    ∀ v ∈ VENDOR_HINT, v.data ≠ [] ∧ (v.data.headD 'a').isWhitespace = false := by
  decide

theorem wordMatch_whitespace_false (pat : List String) (t : List Char)
    (hpat : ∀ alt ∈ pat, alt.data ≠ [] ∧ (alt.data.headD 'a').isWhitespace = false)
    (ht : ∀ ch ∈ t, ch.isWhitespace = true) :
    wordMatch pat (lowerText t) = false := by
  rw [wordMatch, List.any_eq_false]
  intro alt halt
  rcases hpat alt halt with ⟨hne, hhead⟩
  rcases hd : alt.data with _ | ⟨c, cs⟩
  · exact absurd hd hne
  · intro hcontra
    have hc : c ∈ lowerText t := wordMatchAux_head_mem c cs _ _ hcontra
    rcases List.mem_map.mp hc with ⟨ch, hch, hlow⟩
    have hws := ht ch hch
    have hceq : c = ch := by rw [← hlow, toLower_whitespace ch hws]
    rw [hd] at hhead
    simp only [List.headD_cons] at hhead
    rw [hceq, hws] at hhead
    cases hhead

theorem substrIn_whitespace_false (v : String) (t : List Char)
    (hv : v.data ≠ [] ∧ (v.data.headD 'a').isWhitespace = false)
    (ht : ∀ ch ∈ t, ch.isWhitespace = true) :
    substrIn v.data (lowerText t) = false := by
  rcases hd : v.data with _ | ⟨c, cs⟩
  · exact absurd hd hv.1
  · rw [← Bool.not_eq_true]
    intro hcontra
    have hc : c ∈ lowerText t := substrIn_head_mem c cs _ hcontra
    rcases List.mem_map.mp hc with ⟨ch, hch, hlow⟩
    have hws := ht ch hch
    have hceq : c = ch := by rw [← hlow, toLower_whitespace ch hws]
    have hhead := hv.2
    rw [hd] at hhead
    simp only [List.headD_cons] at hhead
    rw [hceq, hws] at hhead
    cases hhead

theorem buckets_for_no_match (text : String)
    (h : ∀ cp ∈ BUCKET_RULES, ∀ pat ∈ cp.2,
      wordMatch pat (lowerText text.data) = false) :
    buckets_for text = ["LLM/Text"] := by
  rw [buckets_for]
  have hfil : (BUCKET_RULES.filter fun cp =>
      cp.2.any fun pat => wordMatch pat (lowerText text.data)) = [] := by
    rw [List.filter_eq_nil_iff]
    intro cp hcp
    rw [Bool.not_eq_true, List.any_eq_false]
    intro pat hpat
    rw [Bool.not_eq_true]
    exact h cp hcp pat hpat
  rw [hfil]
  rfl

theorem buckets_for_whitespace (text : String)
    (ht : ∀ ch ∈ text.data, ch.isWhitespace = true) :
    buckets_for text = ["LLM/Text"] :=
  buckets_for_no_match text fun cp hcp pat hpat =>
    wordMatch_whitespace_false pat _ (bucket_alt_heads cp hcp pat hpat) ht

theorem detect_vendor_whitespace (text : String)
    (ht : ∀ ch ∈ text.data, ch.isWhitespace = true) :
    detect_vendor text = "Other" := by
  rw [detect_vendor]
  have hfind : VENDOR_HINT.find?
      (fun v => substrIn v.data (lowerText text.data)) = none := by
    rw [List.find?_eq_none]
    intro v hv
    rw [substrIn_whitespace_false v _ (vendor_hint_heads v hv) ht]
    exact Bool.false_ne_true
  rw [hfind]

theorem buckets_for_ne_nil (text : String) : buckets_for text ≠ [] := by
  rw [buckets_for]
  by_cases h : ((BUCKET_RULES.filter fun cp =>
      cp.2.any fun pat => wordMatch pat (lowerText text.data)).map Prod.fst).isEmpty
  · rw [if_pos h]
    exact List.cons_ne_nil _ _
  · rw [if_neg h]
    intro hnil
    rw [hnil] at h
    exact h rfl

/-!  ## The claims  -/

/-- C1: every bucket's list in the leaderboard has length at most `top_k`,
is sorted in descending order of `score_total`, its rows of any fixed total
form a sublist of the bucket's unsorted row list (which is in the order the
vendors were first encountered during aggregation), and when the bucket has
at most `top_k` vendors the output is a permutation of all of them. -/
theorem C1_topk_sorted_stable (news : List NewsItem) (top_k : ℕ) (c : String)
    (rows : List Row) (h : (c, rows) ∈ mainLeaderboard top_k news) :
    rows.length ≤ top_k ∧
    rows.Pairwise (fun a b => b.score_total ≤ a.score_total) ∧
    (∀ s : ℚ, (rows.filter fun x => decide (x.score_total = s)).Sublist
      ((bucketRows WEIGHTS ((lookupKey c (aggregate news)).getD [])).filter
        fun x => decide (x.score_total = s))) ∧
    (bucketRows WEIGHTS ((lookupKey c (aggregate news)).getD [])).map Row.label
      = firstEncounter c news ∧
    ((bucketRows WEIGHTS ((lookupKey c (aggregate news)).getD [])).length ≤ top_k →
      rows.Perm (bucketRows WEIGHTS ((lookupKey c (aggregate news)).getD []))) := by
  have hrows := mem_mainLeaderboard news top_k c rows h
  rw [rankBucket] at hrows
  refine ⟨?_, ?_, ?_, ?_, ?_⟩
  · rw [hrows, List.length_take]
    exact min_le_left _ _
  · rw [hrows]
    exact List.Pairwise.take (sortRows_pairwise _)
  · intro s
    rw [hrows, ← sortRows_filter (bucketRows WEIGHTS
      ((lookupKey c (aggregate news)).getD [])) s]
    exact (List.take_sublist _ _).filter _
  · rw [bucketRows, List.map_map]
    rw [show (Row.label ∘ fun va : String × Agg => mkRow WEIGHTS va.1 va.2)
      = Prod.fst from rfl]
    exact vendors_firstEncounter news c
  · intro hlen
    rw [hrows]
    have hlen2 : (sortRows (bucketRows WEIGHTS
        ((lookupKey c (aggregate news)).getD []))).length ≤ top_k := by
      rw [(sortRows_perm _).length_eq]
      exact hlen
    rw [List.take_of_length_le hlen2]
    exact sortRows_perm _

/-- C2: each signal value of the `(c, v)` aggregate equals the maximum of
that signal over the contributing items (starting from 0), the aggregate
exists exactly when some item contributes, and appending further items to
the batch never decreases any aggregated signal value. -/
theorem C2_max_merge_monotone (news : List NewsItem) (c v : String) (k : SigKey) :
    ((aggAt (aggregate news) c v).map fun a => a.sig k).getD 0 =
      maxSig k (contrib c v news) ∧
    (aggAt (aggregate news) c v = none ↔ contrib c v news = []) ∧
    ∀ more : List NewsItem,
      ((aggAt (aggregate news) c v).map fun a => a.sig k).getD 0 ≤
        ((aggAt (aggregate (news ++ more)) c v).map fun a => a.sig k).getD 0 := by
  refine ⟨?_, ?_, ?_⟩
  · rw [aggAt_aggregate, aggFold_sig]
  · rw [aggAt_aggregate]
    constructor
    · intro hnone
      cases hl : contrib c v news with
      | nil => rfl
      | cons it rest =>
          rw [hl, aggFold_cons] at hnone
          cases hnone
    · intro hnil
      rw [hnil]
      rfl
  · intro more
    rw [aggAt_aggregate, aggAt_aggregate, aggFold_sig, aggFold_sig,
      contrib_eq_filter c v (news ++ more), List.filter_append,
      ← contrib_eq_filter, ← contrib_eq_filter]
    exact maxSig_append_le _ _ _

/-- C3: the four keyword signals equal the matching-pattern count divided by
the pattern count capped at 1, and popularity equals
`min(1, 0.5 + 0.5*recency + 0.5*keyword_score)` with the recency score
defaulting to 0 when absent. -/
theorem C3_signal_formulas (item : NewsItem) :
    (item_signals item).performance =
      specKeywordRatio (textOf item) KEYWORDS_performance ∧
    (item_signals item).cost = specKeywordRatio (textOf item) KEYWORDS_cost ∧
    (item_signals item).privacy =
      specKeywordRatio (textOf item) KEYWORDS_privacy ∧
    (item_signals item).innovation =
      specKeywordRatio (textOf item) KEYWORDS_innovation ∧
    (item_signals item).popularity =
      specPopularity (scoreOf item)
        (score_from_keywords (textOf item) KEYWORDS_popularity) := by
  have hgen : ∀ (t : String) (pats : List (List String)), pats ≠ [] →
      score_from_keywords t pats = specKeywordRatio t pats := by
    intro t pats hne
    rw [score_from_keywords_def, specKeywordRatio]
    have hmax : max 1 pats.length = pats.length := by
      have := List.length_pos.mpr hne
      omega
    rw [hmax]
  refine ⟨hgen _ _ (by decide), hgen _ _ (by decide), hgen _ _ (by decide),
    hgen _ _ (by decide), ?_⟩
  rw [item_signals_pop_def, specPopularity]
  congr 1
  ring

/-- C5: classification always yields a non-empty bucket list; when no bucket
pattern matches, it is exactly the fallback `["LLM/Text"]`; empty or
whitespace-only text yields the fallback bucket and vendor `"Other"`. -/
theorem C5_fallback (text : String) :
    buckets_for text ≠ [] ∧
    ((∀ cp ∈ BUCKET_RULES, ∀ pat ∈ cp.2,
        wordMatch pat (lowerText text.data) = false) →
      buckets_for text = ["LLM/Text"]) ∧
    ((∀ ch ∈ text.data, ch.isWhitespace = true) →
      buckets_for text = ["LLM/Text"] ∧ detect_vendor text = "Other") :=
  ⟨buckets_for_ne_nil text, buckets_for_no_match text,
   fun ht => ⟨buckets_for_whitespace text ht, detect_vendor_whitespace text ht⟩⟩

/-- C5 witness: whitespace-only text (a single space, as produced for an
item with no title and no summary) falls back to `LLM/Text` / `Other`. -/
theorem C5_fallback_witness :
    buckets_for " " = ["LLM/Text"] ∧ detect_vendor " " = "Other" :=
  (C5_fallback " ").2.2 (by decide)

/-- C1 witness: the empty batch at bucket `LLM/Text` (its leaderboard row
list is empty). -/
theorem C1_topk_sorted_stable_witness :
    ([] : List Row).length ≤ 5 ∧
    ([] : List Row).Pairwise (fun a b => b.score_total ≤ a.score_total) ∧
    (∀ s : ℚ, (([] : List Row).filter fun x => decide (x.score_total = s)).Sublist
      ((bucketRows WEIGHTS ((lookupKey "LLM/Text" (aggregate [])).getD [])).filter
        fun x => decide (x.score_total = s))) ∧
    (bucketRows WEIGHTS
        ((lookupKey "LLM/Text" (aggregate [])).getD [])).map Row.label
      = firstEncounter "LLM/Text" [] ∧
    ((bucketRows WEIGHTS
        ((lookupKey "LLM/Text" (aggregate [])).getD [])).length ≤ 5 →
      ([] : List Row).Perm
        (bucketRows WEIGHTS ((lookupKey "LLM/Text" (aggregate [])).getD []))) :=
  C1_topk_sorted_stable [] 5 "LLM/Text" [] (by decide)

/-- C4 (amended): `whats_new` holds the first value offered for the pair
(every offered value is non-empty, so this is also the first non-empty one)
and no later item changes it; `whats_new_date` is set by the first item
offering a truthy (non-null, non-empty) date and is never overwritten
afterwards — items offering only null or empty dates before that point do
not fix the field. -/
theorem C4_first_wins (news : List NewsItem) (c v : String) :
    ((aggAt (aggregate news) c v).map Agg.whats_new =
      (contrib c v news).head?.map fun it =>
        some (derive_whats_new_and_date it).1) ∧
    (∀ it : NewsItem, ((derive_whats_new_and_date it).1).isEmpty = false) ∧
    ∀ pre it1 post, contrib c v news = pre ++ it1 :: post →
      (∀ x ∈ pre, pyTruthyOpt (wdateOf x) = false) →
      pyTruthyOpt (wdateOf it1) = true →
      (aggAt (aggregate news) c v).map Agg.whats_new_date =
        some (wdateOf it1) := by
  refine ⟨?_, fun it => wn_not_empty it, ?_⟩
  · rw [aggAt_aggregate, aggFold_whats_new]
  · intro pre it1 post hsplit hpre htruthy
    rw [aggAt_aggregate, hsplit, aggFold_whats_new_date]
    have hne : (pre ++ it1 :: post).isEmpty = false := by
      cases pre <;> rfl
    rw [hne, if_neg Bool.false_ne_true]
    congr 1
    rw [List.map_append, List.map_cons]
    exact dateFold_first_truthy (pre.map wdateOf) (wdateOf it1) (post.map wdateOf)
      (fun x hx => by
        rcases List.mem_map.mp hx with ⟨y, hy, heq⟩
        rw [← heq]
        exact hpre y hy)
      htruthy none rfl

/-- C4 witness: a first item offering no date at all, then an item with a
truthy `published_at`; the latter sets `whats_new_date`. -/
theorem C4_first_wins_witness :
    (aggAt (aggregate
        [{ title := some "token a", summary := none, url := none,
           published_at := none, date := none, score := none },
         { title := some "token b", summary := none, url := none,
           published_at := some "2024-05-05", date := none, score := none }])
      "LLM/Text" "Other").map Agg.whats_new_date = some (some "2024-05-05") :=
  (C4_first_wins
    [{ title := some "token a", summary := none, url := none,
       published_at := none, date := none, score := none },
     { title := some "token b", summary := none, url := none,
       published_at := some "2024-05-05", date := none, score := none }]
    "LLM/Text" "Other").2.2
    [{ title := some "token a", summary := none, url := none,
       published_at := none, date := none, score := none }]
    { title := some "token b", summary := none, url := none,
      published_at := some "2024-05-05", date := none, score := none }
    [] (by decide) (by decide) (by decide)

/-- C4 counterexample: the claim as stated fails — the first item offers the
non-null (but empty, hence falsy) date `""`, yet a later item overwrites
the field, so `whats_new_date` does not hold the first non-null date
offered and IS changed after being set. -/
theorem C4_counterexample :
    (((contrib "LLM/Text" "Other"
        [{ title := some "token one", summary := none, url := none,
           published_at := none, date := some "", score := none },
         { title := some "token two", summary := none, url := none,
           published_at := some "2024-01-02", date := none, score := none }]).map
        wdateOf).filter fun d => decide (d ≠ none)).head? = some (some "") ∧
    (aggAt (aggregate
        [{ title := some "token one", summary := none, url := none,
           published_at := none, date := some "", score := none },
         { title := some "token two", summary := none, url := none,
           published_at := some "2024-01-02", date := none, score := none }])
      "LLM/Text" "Other").map Agg.whats_new_date = some (some "2024-01-02") ∧
    (some "2024-01-02" : Option String) ≠ some "" := by decide

/-- C6 (amended): the built-in weight vector does sum exactly to 1, but the
ranker performs no validation whatsoever: for EVERY weight vector — whether
or not it sums to 1 — it simply returns the sorted, truncated rows whose
totals are computed by the weighted-sum formula; no configuration error is
reported. -/
theorem C6_no_weight_validation :
    weightsSum WEIGHTS = 1 ∧
    ∀ (w : Weights) (k : ℕ) (vendors : List (String × Agg)),
      (rankBucket w k vendors).length = min k vendors.length ∧
      ∀ r ∈ rankBucket w k vendors, ∃ p ∈ vendors, r = mkRow w p.1 p.2 := by
  constructor
  · norm_num [weightsSum, WEIGHTS, WEIGHTS_popularity, WEIGHTS_performance,
      WEIGHTS_cost, WEIGHTS_privacy, WEIGHTS_innovation]
  · intro w k vendors
    constructor
    · rw [rankBucket, List.length_take, (sortRows_perm _).length_eq,
        bucketRows, List.length_map]
    · intro r hr
      rw [rankBucket] at hr
      have h1 : r ∈ sortRows (bucketRows w vendors) := List.mem_of_mem_take hr
      have h2 : r ∈ bucketRows w vendors := (sortRows_perm _).mem_iff.mp h1
      rcases List.mem_map.mp h2 with ⟨p, hp, heq⟩
      exact ⟨p, hp, heq.symm⟩

/-- C6 witness: with an invalid weight vector summing to 5 (not 1) and one
vendor, ranking still succeeds and returns that vendor's row. -/
theorem C6_no_weight_validation_witness :
    ∃ p ∈ [("Other", initAgg "LLM/Text")],
      mkRow { popularity := 1, performance := 1, cost := 1, privacy := 1,
              innovation := 1 } "Other" (initAgg "LLM/Text") =
        mkRow { popularity := 1, performance := 1, cost := 1, privacy := 1,
                innovation := 1 } p.1 p.2 :=
  ((C6_no_weight_validation.2
      { popularity := 1, performance := 1, cost := 1, privacy := 1,
        innovation := 1 } 5 [("Other", initAgg "LLM/Text")]).2
    (mkRow { popularity := 1, performance := 1, cost := 1, privacy := 1,
             innovation := 1 } "Other" (initAgg "LLM/Text"))
    (List.mem_singleton.mpr rfl))

/-- C6 counterexample: a weight vector whose entries sum to 5, yet ranking
does not report any error — it computes the weighted total (here 0) and
produces a normal leaderboard row list. -/
theorem C6_counterexample :
    weightsSum { popularity := 1, performance := 1, cost := 1, privacy := 1,
                 innovation := 1 } ≠ 1 ∧
    rankBucket { popularity := 1, performance := 1, cost := 1, privacy := 1,
                 innovation := 1 } 5 [("Other", initAgg "LLM/Text")] =
      [mkRow { popularity := 1, performance := 1, cost := 1, privacy := 1,
               innovation := 1 } "Other" (initAgg "LLM/Text")] ∧
    (mkRow { popularity := 1, performance := 1, cost := 1, privacy := 1,
             innovation := 1 } "Other" (initAgg "LLM/Text")).score_total = 0 := by
  refine ⟨?_, rfl, ?_⟩
  · norm_num [weightsSum]
  · show roundTo 4 (totalScore
      { popularity := 1, performance := 1, cost := 1, privacy := 1,
        innovation := 1 } (initAgg "LLM/Text")) = 0
    have h0 : totalScore
        { popularity := 1, performance := 1, cost := 1, privacy := 1,
          innovation := 1 } (initAgg "LLM/Text") = 0 := by
      norm_num [totalScore, initAgg]
    rw [h0, roundTo]
    norm_num [rndHalfEven]

/-- C7 (amended): a missing prior-state file yields the supplied default
document; unparseable contents are NOT handled — `read_json` propagates the
JSON decode error instead of returning the default. -/
theorem C7_missing_only {α : Type} (parse : String → Option α) (dflt : α) :
    read_json parse FileOutcome.missing dflt = .ok dflt ∧
    ∀ s, parse s = none →
      read_json parse (FileOutcome.withContents s) dflt =
        .error .jsonDecodeError := by
  refine ⟨rfl, ?_⟩
  intro s hs
  simp [read_json, hs]

/-- C7 witness: a missing file returns the default and a failing parse
raises, at a concrete parser and contents. -/
theorem C7_missing_only_witness :
    read_json (fun _ => none) FileOutcome.missing (0 : ℕ) = .ok 0 ∧
    read_json (fun _ => none) (FileOutcome.withContents "not json") (0 : ℕ) =
      .error .jsonDecodeError :=
  ⟨(C7_missing_only (fun _ => none) (0 : ℕ)).1,
   (C7_missing_only (fun _ => none) (0 : ℕ)).2 "not json" rfl⟩

/-- C7 counterexample: for corrupt (unparseable) contents `read_json` does
not return the supplied default — it raises `json.JSONDecodeError`. -/
theorem C7_counterexample :
    read_json (fun _ => none) (FileOutcome.withContents "not json")
        ([("top_news", 0)] : List (String × ℕ)) = .error .jsonDecodeError ∧
    (Except.error PyError.jsonDecodeError :
        Except PyError (List (String × ℕ))) ≠
      .ok ([("top_news", 0)] : List (String × ℕ)) :=
  ⟨rfl, by simp⟩

/-- C8: assembling the output document overwrites exactly the engine-owned
keys `leaderboard` and `generated_at`; the value of every other key of the
prior document is unchanged. -/
theorem C8_frame {α : Type} (prior : List (String × α)) (lb ts : α) :
    lookupKey "leaderboard" (assemble prior lb ts) = some lb ∧
    lookupKey "generated_at" (assemble prior lb ts) = some ts ∧
    ∀ k2, k2 ≠ "leaderboard" → k2 ≠ "generated_at" →
      lookupKey k2 (assemble prior lb ts) = lookupKey k2 prior := by
  refine ⟨?_, ?_, ?_⟩
  · rw [assemble, setKey_lookup_other _ _ (by decide), setKey_lookup_same]
  · rw [assemble, setKey_lookup_same]
  · intro k2 h1 h2
    rw [assemble, setKey_lookup_other _ _ h2, setKey_lookup_other _ _ h1]

/-- C8 witness: a prior document with the unknown key `top_news` keeps its
value through assembly. -/
theorem C8_frame_witness :
    lookupKey "top_news" (assemble [("top_news", 7)] 1 2) =
      lookupKey "top_news" [("top_news", 7)] :=
  (C8_frame [("top_news", 7)] 1 2).2.2 "top_news" (by decide) (by decide)

/-- C9: the leaderboard's key list is always exactly the five fixed
categories, and on the empty batch every bucket maps to the empty row
list. -/
theorem C9_all_buckets (news : List NewsItem) (top_k : ℕ) :
    (mainLeaderboard top_k news).map Prod.fst = CATEGORIES ∧
    mainLeaderboard top_k [] = CATEGORIES.map fun c => (c, ([] : List Row)) := by
  constructor
  · rw [mainLeaderboard, buildLeaderboard, List.map_map]
    rw [show (Prod.fst ∘ fun cv : String × List (String × Agg) =>
      (cv.1, rankBucket WEIGHTS top_k cv.2)) = Prod.fst from rfl]
    exact aggregate_keys news
  · rw [mainLeaderboard, buildLeaderboard,
      show aggregate [] = initPB from rfl, initPB, List.map_map]
    have hrank : rankBucket WEIGHTS top_k ([] : List (String × Agg)) = [] := by
      rw [rankBucket, show sortRows (bucketRows WEIGHTS []) = [] from rfl]
      exact List.take_nil
    refine List.map_congr_left ?_
    intro c _
    show (c, rankBucket WEIGHTS top_k []) = (c, [])
    rw [hrank]

/-- C10: when every item's recency score lies in [0,1], every aggregated
signal lies in [0,1], the popularity of every present vendor (one with at
least one contributing item) is at least 1/2, and every ranked row's
`score_total` lies in [0,1]. -/
theorem C10_bounds (news : List NewsItem) (top_k : ℕ)
    (h : ∀ it ∈ news, 0 ≤ scoreOf it ∧ scoreOf it ≤ 1) :
    (∀ c v agg, aggAt (aggregate news) c v = some agg →
      (∀ k, 0 ≤ agg.sig k ∧ agg.sig k ≤ 1) ∧
        1/2 ≤ agg.sig SigKey.popularity) ∧
    (∀ c rows, (c, rows) ∈ mainLeaderboard top_k news →
      ∀ r ∈ rows, 0 ≤ r.score_total ∧ r.score_total ≤ 1) := by
  have hA : ∀ c v agg, aggAt (aggregate news) c v = some agg →
      (∀ k, 0 ≤ agg.sig k ∧ agg.sig k ≤ 1) ∧
        1/2 ≤ agg.sig SigKey.popularity := by
    intro c v agg hagg
    rw [aggAt_aggregate] at hagg
    have hitems : ∀ it ∈ contrib c v news, 0 ≤ scoreOf it ∧ scoreOf it ≤ 1 :=
      fun it hit => h it (List.mem_of_mem_filter hit)
    have hsig : ∀ k, agg.sig k = maxSig k (contrib c v news) := by
      intro k
      have hh := aggFold_sig c (contrib c v news) k
      rw [hagg, Option.map_some', Option.getD_some] at hh
      exact hh
    have hne : contrib c v news ≠ [] := by
      intro hnil
      rw [hnil] at hagg
      cases hagg
    constructor
    · intro k
      rw [hsig k]
      refine ⟨maxSig_nonneg k _, ?_⟩
      rw [maxSig]
      exact foldl_max_le _ _ 0 1 (by norm_num)
        (fun x hx => (item_signals_bounds x (hitems x hx).1 (hitems x hx).2 k).2)
    · obtain ⟨it, rest, hl⟩ : ∃ it rest, contrib c v news = it :: rest := by
        rcases hcc : contrib c v news with _ | ⟨a, b⟩
        · exact absurd hcc hne
        · exact ⟨a, b, rfl⟩
      rw [hsig SigKey.popularity, hl, maxSig, List.foldl_cons]
      have hit : it ∈ contrib c v news := by
        rw [hl]
        exact List.mem_cons_self _ _
      exact le_trans (le_trans (item_signals_pop_ge it (hitems it hit).1)
        (le_max_right 0 _)) (le_foldl_max _ rest _)
  refine ⟨hA, ?_⟩
  intro c rows hmem r hr
  have hrows := mem_mainLeaderboard news top_k c rows hmem
  rw [rankBucket] at hrows
  rw [hrows] at hr
  have h1 : r ∈ sortRows (bucketRows WEIGHTS
      ((lookupKey c (aggregate news)).getD [])) := List.mem_of_mem_take hr
  have h2 : r ∈ bucketRows WEIGHTS ((lookupKey c (aggregate news)).getD []) :=
    (sortRows_perm _).mem_iff.mp h1
  rcases List.mem_map.mp h2 with ⟨p, hp, heq⟩
  have haggat : aggAt (aggregate news) c p.1 = some p.2 := by
    rw [aggAt]
    exact lookupKey_of_mem_nodup _ _ _ (vendors_nodup news c) (by exact hp)
  have hbounds := (hA c p.1 p.2 haggat).1
  have htot := totalScore_bounds p.2 hbounds
  rw [← heq]
  have hrt : (mkRow WEIGHTS p.1 p.2).score_total =
      roundTo 4 (totalScore WEIGHTS p.2) := rfl
  rw [hrt]
  exact roundTo_bounds 4 _ htot.1 htot.2

/-- C10 witness: a concrete one-item batch (absent score, treated as 0)
satisfies the hypothesis, so all the bounds hold for it. -/
theorem C10_bounds_witness :
    (∀ c v agg, aggAt (aggregate
        [{ title := some "token a", summary := none, url := none,
           published_at := none, date := none, score := none }]) c v =
          some agg →
      (∀ k, 0 ≤ agg.sig k ∧ agg.sig k ≤ 1) ∧
        1/2 ≤ agg.sig SigKey.popularity) ∧
    (∀ c rows, (c, rows) ∈ mainLeaderboard 5
        [{ title := some "token a", summary := none, url := none,
           published_at := none, date := none, score := none }] →
      ∀ r ∈ rows, 0 ≤ r.score_total ∧ r.score_total ≤ 1) :=
  C10_bounds
    [{ title := some "token a", summary := none, url := none,
       published_at := none, date := none, score := none }] 5
    (fun it hit => by
      rw [List.mem_singleton.mp hit]
      exact ⟨le_refl 0, zero_le_one⟩)

end AIDash
